import Mathlib

set_option maxHeartbeats 1000000
set_option maxRecDepth 10000

/-
Verification development for the Aste-Bergamo scraper (src/main.py).

Python strings are modelled as lists of characters (List Char).  Pure string
helpers of the source are translated function by function; the browser-driven
and network-performing parts are abstracted as explicit parameters (a fetch
function standing for the HTTP redirect-following GET, and per-locality
scraping outcomes given as Except values standing for raised exceptions).
Machine details that only apply to non-ASCII byte sequences (Python percent
decoding assembles UTF-8 byte runs; our model decodes each percent pair to a
single character, which agrees with Python on all ASCII data used here) are
noted at the definition concerned.
-/

-- ---------------------------------------------------------------------------
-- Basic Python string helpers
-- ---------------------------------------------------------------------------

/-- Characters stripped by the Python str.strip method and matched by the
regex class backslash-s (ASCII range). -/
def pyWhitespace (c : Char) : Bool :=
  c == ' ' || c == '\t' || c == '\n' || c == '\r' || c == '\x0b' || c == '\x0c'

/-- Python str.strip: drop leading and trailing whitespace. -/
def pyStrip (s : List Char) : List Char :=
  ((s.dropWhile pyWhitespace).reverse.dropWhile pyWhitespace).reverse

/-- Lowercasing of a string, character by character (Python str.lower on
ASCII data). -/
def toLowerStr (s : List Char) : List Char :=
  s.map Char.toLower

/-- Helper for the whitespace-collapsing substitution of the source: the
Boolean flag records whether the previous character was whitespace. -/
def collapseWSAux : Bool → List Char → List Char
  | _, [] => []
  | inWS, c :: rest =>
    if pyWhitespace c then
      if inWS then collapseWSAux true rest
      else ' ' :: collapseWSAux true rest
    else c :: collapseWSAux false rest

/-- The source function _strip_spaces: replace every maximal whitespace run
by a single space, then strip. -/
def strip_spaces (s : List Char) : List Char :=
  pyStrip (collapseWSAux false s)

-- ---------------------------------------------------------------------------
-- Facts about pyStrip needed for idempotence of URL normalization
-- ---------------------------------------------------------------------------

theorem dropWhile_first_false {p : Char → Bool} :
    ∀ (l : List Char) (c : Char) (t : List Char), l.dropWhile p = c :: t → p c = false := by
  intro l
  induction l with
  | nil => intro c t h; simp [List.dropWhile] at h
  | cons a as ih =>
    intro c t h
    rw [List.dropWhile_cons] at h
    split at h
    · exact ih c t h
    · rename_i hp
      cases h
      simpa using hp

theorem dropWhile_is_suffix {p : Char → Bool} :
    ∀ l : List Char, ∃ t, t ++ l.dropWhile p = l := by
  intro l
  induction l with
  | nil => exact ⟨[], rfl⟩
  | cons a as ih =>
    rw [List.dropWhile_cons]
    split
    · obtain ⟨t, ht⟩ := ih
      exact ⟨a :: t, by simp [ht]⟩
    · exact ⟨[], rfl⟩

theorem dropWhile_eq_self_of_head {p : Char → Bool} (l : List Char)
    (h : ∀ c t, l = c :: t → p c = false) : l.dropWhile p = l := by
  cases l with
  | nil => rfl
  | cons a as =>
    rw [List.dropWhile_cons]
    simp [h a as rfl]

theorem pyStrip_eq_self (l : List Char)
    (h1 : ∀ c t, l = c :: t → pyWhitespace c = false)
    (h2 : ∀ c t, l.reverse = c :: t → pyWhitespace c = false) :
    pyStrip l = l := by
  unfold pyStrip
  rw [dropWhile_eq_self_of_head l h1, dropWhile_eq_self_of_head l.reverse h2,
    List.reverse_reverse]

theorem pyStrip_head_ws (s : List Char) (c : Char) (t : List Char)
    (h : pyStrip s = c :: t) : pyWhitespace c = false := by
  obtain ⟨r, hr⟩ :=
    dropWhile_is_suffix (p := pyWhitespace) (s.dropWhile pyWhitespace).reverse
  unfold pyStrip at h
  have hA : s.dropWhile pyWhitespace = c :: (t ++ r.reverse) := by
    have h2 := congrArg List.reverse hr
    rw [List.reverse_append, List.reverse_reverse] at h2
    rw [h] at h2
    simpa using h2.symm
  exact dropWhile_first_false _ _ _ hA

theorem pyStrip_last_ws (s : List Char) (c : Char) (t : List Char)
    (h : (pyStrip s).reverse = c :: t) : pyWhitespace c = false := by
  unfold pyStrip at h
  rw [List.reverse_reverse] at h
  exact dropWhile_first_false _ _ _ h

theorem pyStrip_idem (s : List Char) : pyStrip (pyStrip s) = pyStrip s := by
  apply pyStrip_eq_self
  · exact fun c t h => pyStrip_head_ws s c t h
  · exact fun c t h => pyStrip_last_ws s c t h

-- ---------------------------------------------------------------------------
-- URL normalization (_normalize_url) and claim C9
-- ---------------------------------------------------------------------------

/-- Site origin used by the source when absolutizing root-relative links. -/
def SITE_ORIGIN : List Char := "https://www.tribunale.bergamo.it".data

/-- The source constant TRIBUNALE_URL, the search-results page used as
fallback link. -/
def TRIBUNALE_URL : List Char :=
  "https://www.tribunale.bergamo.it/vendite-giudiziarie_164.html".data

/-- The source function _normalize_url. -/
def normalize_url (url : List Char) : List Char :=
  if pyStrip url = [] then []
  else if "//".data.isPrefixOf (pyStrip url) then "https:".data ++ pyStrip url
  else if "/".data.isPrefixOf (pyStrip url) then SITE_ORIGIN ++ pyStrip url
  else if "www.".data.isPrefixOf (pyStrip url) then "https://".data ++ pyStrip url
  else pyStrip url

theorem normalize_url_fixed (w u : List Char) (hw : ∃ t, w = 'h' :: t)
    (hlast : ∀ c t, u.reverse = c :: t → pyWhitespace c = false) (hne : u ≠ []) :
    normalize_url (w ++ u) = w ++ u := by
  obtain ⟨t, rfl⟩ := hw
  have hstrip : pyStrip (('h' :: t) ++ u) = ('h' :: t) ++ u := by
    apply pyStrip_eq_self
    · intro c s h
      rw [List.cons_append] at h
      injection h with h1 h2
      rw [← h1]
      decide
    · intro c s h
      rw [List.reverse_append] at h
      cases hu : u.reverse with
      | nil =>
        exact absurd (by simpa using congrArg List.reverse hu) hne
      | cons c0 t0 =>
        rw [hu, List.cons_append] at h
        injection h with h1 h2
        exact h1 ▸ hlast c0 t0 hu
  have c1 : "//".data.isPrefixOf ('h' :: (t ++ u)) = false := rfl
  have c2 : "/".data.isPrefixOf ('h' :: (t ++ u)) = false := rfl
  have c3 : "www.".data.isPrefixOf ('h' :: (t ++ u)) = false := rfl
  rw [normalize_url, hstrip, List.cons_append]
  rw [if_neg (show ¬('h' :: (t ++ u) = []) by simp),
    if_neg (show ¬("//".data.isPrefixOf ('h' :: (t ++ u)) = true) by rw [c1]; simp),
    if_neg (show ¬("/".data.isPrefixOf ('h' :: (t ++ u)) = true) by rw [c2]; simp),
    if_neg (show ¬("www.".data.isPrefixOf ('h' :: (t ++ u)) = true) by rw [c3]; simp)]

theorem pyStrip_ne_nil_reverse_head (u : List Char) (hu : u ≠ []) :
    ∃ c t, u.reverse = c :: t := by
  cases h : u.reverse with
  | nil => exact absurd (by simpa using congrArg List.reverse h) hu
  | cons c t => exact ⟨c, t, rfl⟩

/-- C9: URL normalization is idempotent: for every string u, normalizing the
result of normalizing u returns the same string as normalizing u once. -/
theorem claim_C9_normalize_idempotent (u : List Char) :
    normalize_url (normalize_url u) = normalize_url u := by
  by_cases h0 : pyStrip u = []
  · have hv : normalize_url u = [] := by rw [normalize_url, if_pos h0]
    rw [hv]
    decide
  · have hlast : ∀ c t, (pyStrip u).reverse = c :: t → pyWhitespace c = false :=
      fun c t h => pyStrip_last_ws u c t h
    by_cases h1 : "//".data.isPrefixOf (pyStrip u)
    · have hv : normalize_url u = "https:".data ++ pyStrip u := by
        rw [normalize_url, if_neg h0, if_pos h1]
      rw [hv]
      exact normalize_url_fixed "https:".data (pyStrip u) ⟨"ttps:".data, rfl⟩ hlast h0
    · by_cases h2 : "/".data.isPrefixOf (pyStrip u)
      · have hv : normalize_url u = SITE_ORIGIN ++ pyStrip u := by
          rw [normalize_url, if_neg h0, if_neg h1, if_pos h2]
        rw [hv]
        exact normalize_url_fixed SITE_ORIGIN (pyStrip u)
          ⟨"ttps://www.tribunale.bergamo.it".data, rfl⟩ hlast h0
      · by_cases h3 : "www.".data.isPrefixOf (pyStrip u)
        · have hv : normalize_url u = "https://".data ++ pyStrip u := by
            rw [normalize_url, if_neg h0, if_neg h1, if_neg h2, if_pos h3]
          rw [hv]
          exact normalize_url_fixed "https://".data (pyStrip u) ⟨"ttps://".data, rfl⟩ hlast h0
        · have hv : normalize_url u = pyStrip u := by
            rw [normalize_url, if_neg h0, if_neg h1, if_neg h2, if_neg h3]
          rw [hv, normalize_url, pyStrip_idem]
          rw [if_neg h0, if_neg h1, if_neg h2, if_neg h3]

-- ---------------------------------------------------------------------------
-- Date extraction (_extract_date_str) and claim C1
-- ---------------------------------------------------------------------------

def digitVal (c : Char) : Nat := c.toNat - '0'.toNat

/-- Candidates for the greedy group of one or two digits of the source regex,
in backtracking order: the two-digit reading first, then the one-digit one.
Each candidate carries its numeric value and the remaining input. -/
def dayCandidates : List Char → List (Nat × List Char)
  | [] => []
  | [a] => if a.isDigit then [(digitVal a, [])] else []
  | a :: b :: rest =>
    if a.isDigit then
      if b.isDigit then
        [(digitVal a * 10 + digitVal b, rest), (digitVal a, b :: rest)]
      else [(digitVal a, b :: rest)]
    else []

/-- The separator class of the source regex: a period or a slash. -/
def matchSep : List Char → Option (List Char)
  | c :: rest => if c == '.' || c == '/' then some rest else none
  | [] => none

/-- The four-digit year group of the source regex, kept as its raw
characters because the source formats the year group verbatim. -/
def match4digits : List Char → Option (List Char)
  | a :: b :: c :: d :: _ =>
    if a.isDigit && b.isDigit && c.isDigit && d.isDigit then some [a, b, c, d]
    else none
  | _ => none

/-- Matching the source date regex at the start of the input, with the
backtracking order of the Python regex engine. -/
def matchDateAt (l : List Char) : Option (Nat × Nat × List Char) :=
  (dayCandidates l).findSome? (fun dc =>
    match matchSep dc.2 with
    | none => none
    | some r2 =>
      (dayCandidates r2).findSome? (fun mc =>
        match matchSep mc.2 with
        | none => none
        | some r4 =>
          match match4digits r4 with
          | none => none
          | some y => some (dc.1, mc.1, y)))

/-- The leftmost-match search of re.search: try every start position from
the left and return the first success. -/
def searchDate : List Char → Option (Nat × Nat × List Char)
  | [] => none
  | c :: rest =>
    match matchDateAt (c :: rest) with
    | some r => some r
    | none => searchDate rest

/-- Zero padding of the Python format specification 02d for values of at
most two digits. -/
def pad2 (n : Nat) : List Char :=
  if n < 10 then '0' :: Nat.toDigits 10 n else Nat.toDigits 10 n

/-- The source function _extract_date_str. -/
def extract_date_str (text : List Char) : List Char :=
  match searchDate text with
  | none => "n/d".data
  | some (d, m, y) => pad2 d ++ '/' :: (pad2 m ++ '/' :: y)

theorem matchDateAt_nil : matchDateAt [] = none := rfl

theorem searchDate_none (l : List Char) (h : searchDate l = none) :
    ∀ i, matchDateAt (l.drop i) = none := by
  induction l with
  | nil =>
    intro i
    rw [List.drop_nil]
    rfl
  | cons c rest ih =>
    intro i
    simp only [searchDate] at h
    cases hm : matchDateAt (c :: rest) with
    | some r =>
      rw [hm] at h
      exact absurd h (by simp)
    | none =>
      rw [hm] at h
      cases i with
      | zero => simpa using hm
      | succ j => simpa using ih h j

theorem searchDate_some (l : List Char) (r : Nat × Nat × List Char)
    (h : searchDate l = some r) :
    ∃ i, matchDateAt (l.drop i) = some r ∧ ∀ j, j < i → matchDateAt (l.drop j) = none := by
  induction l with
  | nil => simp [searchDate] at h
  | cons c rest ih =>
    simp only [searchDate] at h
    cases hm : matchDateAt (c :: rest) with
    | some r2 =>
      rw [hm] at h
      refine ⟨0, ?_, ?_⟩
      · rw [List.drop_zero, hm]
        exact h
      · intro j hj
        exact absurd hj (Nat.not_lt_zero j)
    | none =>
      rw [hm] at h
      obtain ⟨i, hi, hmin⟩ := ih h
      refine ⟨i + 1, by simpa using hi, ?_⟩
      intro j hj
      cases j with
      | zero => simpa using hm
      | succ k => simpa using hmin k (by omega)

/-- C1 amended: the resolved sale date is obtained from the single leftmost
date-shaped token (greedy day and month groups, period or slash separators,
four-digit year) in the text, rendered zero-padded with the raw year
characters; when no token matches anywhere the result is the string n/d.
No calendar-validity check and no today-relative selection is performed. -/
theorem claim_C1_first_token (text : List Char) :
    ((∀ i, matchDateAt (text.drop i) = none) → extract_date_str text = "n/d".data) ∧
    (∀ i d m y, matchDateAt (text.drop i) = some (d, m, y) →
      (∀ j, j < i → matchDateAt (text.drop j) = none) →
      extract_date_str text = pad2 d ++ '/' :: (pad2 m ++ '/' :: y)) := by
  constructor
  · intro hall
    cases hs : searchDate text with
    | none => simp only [extract_date_str, hs]
    | some r =>
      obtain ⟨i, hi, _⟩ := searchDate_some text r hs
      rw [hall i] at hi
      exact absurd hi (by simp)
  · intro i d m y hm hmin
    cases hs : searchDate text with
    | none =>
      have hni := searchDate_none text hs i
      rw [hni] at hm
      exact absurd hm (by simp)
    | some r =>
      obtain ⟨i2, hi2, hmin2⟩ := searchDate_some text r hs
      have hieq : i = i2 := by
        rcases Nat.lt_trichotomy i i2 with hlt | heq | hgt
        · rw [hmin2 i hlt] at hm
          exact absurd hm (by simp)
        · exact heq
        · rw [hmin i2 hgt] at hi2
          exact absurd hi2 (by simp)
      subst hieq
      rw [hm] at hi2
      injection hi2 with hr
      simp only [extract_date_str, hs, ← hr]

theorem claim_C1_first_token_witness :
    extract_date_str "99.99.2024".data = pad2 99 ++ '/' :: (pad2 99 ++ '/' :: "2024".data) :=
  (claim_C1_first_token "99.99.2024".data).2 0 99 99 "2024".data (by decide)
    (fun j hj => absurd hj (Nat.not_lt_zero j))

-- ---------------------------------------------------------------------------
-- Spec-side model of the date selection policy, for comparison (claim C1)
-- ---------------------------------------------------------------------------

def yearVal (y : List Char) : Nat := y.foldl (fun acc c => acc * 10 + digitVal c) 0

/-- Modelled from the spec: the calendar-validity test the Date Extractor is
specified to apply to candidate tokens (reject tokens that do not form a
valid calendar date). -/
def isValidCalendarDate (d m y : Nat) : Bool :=
  decide (1 ≤ d) && decide (1 ≤ m) && decide (m ≤ 12) &&
    decide (d ≤ (if m = 2 then (if (y % 4 = 0 ∧ y % 100 ≠ 0) ∨ y % 400 = 0 then 29 else 28)
      else if m = 4 ∨ m = 6 ∨ m = 9 ∨ m = 11 then 30 else 31))

/-- Modelled from the spec: extraction scans free text for date-shaped
tokens at every position and keeps the valid calendar dates (multiple
distinct valid dates may occur per block). -/
def specDateTokens (text : List Char) : List (Nat × Nat × Nat) :=
  (List.range (text.length + 1)).filterMap (fun i =>
    match matchDateAt (text.drop i) with
    | some (d, m, y) =>
      if isValidCalendarDate d m (yearVal y) then some (d, m, yearVal y) else none
    | none => none)

/-- Chronological key of a (day, month, year) triple. -/
def dateKey : Nat × Nat × Nat → Nat
  | (d, m, y) => y * 10000 + m * 100 + d

/-- Modelled from the spec: the selection policy of the Date Extractor; the
earliest current-or-future date when one exists, otherwise the latest
extracted date, otherwise none (rendered as unknown). -/
def specSaleDate (today : Nat × Nat × Nat) (text : List Char) : Option (Nat × Nat × Nat) :=
  let toks := specDateTokens text
  let fut := toks.filter (fun t => decide (dateKey today ≤ dateKey t))
  match fut.foldl (fun acc t =>
      match acc with
      | none => some t
      | some b => if dateKey t < dateKey b then some t else some b) none with
  | some t => some t
  | none =>
    toks.foldl (fun acc t =>
      match acc with
      | none => some t
      | some b => if dateKey b < dateKey t then some t else some b) none

/-- C1 counterexample: on the text 99.99.2024 no token forms a valid
calendar date, so by the claim the sale date should resolve to unknown; the
code instead returns the first date-shaped match 99/99/2024 without any
validity check. -/
theorem claim_C1_cex :
    specSaleDate (12, 10, 2026) "vendita 99.99.2024".data = none ∧
    extract_date_str "vendita 99.99.2024".data = "99/99/2024".data ∧
    "99/99/2024".data ≠ "n/d".data := by
  refine ⟨by decide, by decide, by decide⟩

-- ---------------------------------------------------------------------------
-- Tracking-redirect decoding (_try_extract_real_url_from_tracking)
-- ---------------------------------------------------------------------------

/-- Python substring membership (the in operator on strings): contiguous
occurrence of the needle in the haystack. -/
def isSubstr (needle : List Char) : List Char → Bool
  | [] => needle.isEmpty
  | c :: rest => needle.isPrefixOf (c :: rest) || isSubstr needle rest

def hexVal (c : Char) : Option Nat :=
  if '0' ≤ c ∧ c ≤ '9' then some (c.toNat - '0'.toNat)
  else if 'a' ≤ c ∧ c ≤ 'f' then some (c.toNat - 'a'.toNat + 10)
  else if 'A' ≤ c ∧ c ≤ 'F' then some (c.toNat - 'A'.toNat + 10)
  else none

/-- One pass of Python urllib unquote. Each valid percent pair becomes the
character with that code point; Python additionally merges consecutive
pairs into UTF-8 byte runs, which coincides with this model on ASCII
data (all data flowing through the scraper query strings here). -/
def pyUnquote : List Char → List Char
  | [] => []
  | '%' :: a :: b :: rest2 =>
    match hexVal a, hexVal b with
    | some x, some y => Char.ofNat (16 * x + y) :: pyUnquote rest2
    | _, _ => '%' :: pyUnquote (a :: b :: rest2)
  | '%' :: rest => '%' :: rest
  | c :: rest => c :: pyUnquote rest

/-- Python urllib unquote_plus: plus signs become spaces, then unquote. -/
def unquote_plus (l : List Char) : List Char :=
  pyUnquote (l.map (fun c => if c == '+' then ' ' else c))

def schemeChar (c : Char) : Bool :=
  c.isAlphanum || c == '+' || c == '-' || c == '.'

/-- Scheme removal step of Python urlsplit: when the text before the first
colon is a well-formed scheme name, drop it together with the colon. -/
def dropScheme (u : List Char) : List Char :=
  match u.findIdx? (fun c => c == ':') with
  | none => u
  | some i =>
    if decide (0 < i) && (u.take i).all schemeChar &&
        (match u.head? with | some c => c.isAlpha | none => false) then
      u.drop (i + 1)
    else u

/-- Netloc extraction step of Python urlsplit: after a double slash, the
netloc runs up to the first slash, question mark or hash. -/
def netlocSplit (u : List Char) : List Char × List Char :=
  if "//".data.isPrefixOf u then
    match (u.drop 2).findIdx? (fun c => c == '/' || c == '?' || c == '#') with
    | some i => ((u.drop 2).take i, (u.drop 2).drop i)
    | none => (u.drop 2, [])
  else ([], u)

def dropFragment (u : List Char) : List Char :=
  match u.findIdx? (fun c => c == '#') with
  | some i => u.take i
  | none => u

def queryOf (u : List Char) : List Char :=
  match u.findIdx? (fun c => c == '?') with
  | some i => u.drop (i + 1)
  | none => []

def urlNetloc (u : List Char) : List Char := (netlocSplit (dropScheme u)).1

def urlQuery (u : List Char) : List Char :=
  queryOf (dropFragment (netlocSplit (dropScheme u)).2)

/-- Query-string pairs as produced by Python parse_qsl with its default
settings: split on ampersands, keep only pairs that have an equals sign
and a nonempty value, and percent-plus-decode names and values once. -/
def qsPairs (q : List Char) : List (List Char × List Char) :=
  (q.splitOn '&').filterMap (fun seg =>
    match seg.findIdx? (fun c => c == '=') with
    | none => none
    | some i =>
      if seg.drop (i + 1) = [] then none
      else some (unquote_plus (seg.take i), unquote_plus (seg.drop (i + 1))))

/-- The first value listed under the name u by parse_qs, when present. -/
def parseQsFirstU (q : List Char) : Option (List Char) :=
  (qsPairs q).findSome? (fun pr => if pr.1 = "u".data then some pr.2 else none)

/-- Characters admitted by the negated class of the source URL regex:
everything except space, newline, carriage return and tab. -/
def notTokenWs (c : Char) : Bool :=
  !(c == ' ' || c == '\n' || c == '\r' || c == '\t')

/-- Matching the source URL regex at the start of the input: an http or
https scheme marker followed by at least one non-whitespace character,
taken greedily. -/
def matchHttpAt (l : List Char) : Option (List Char) :=
  if "https://".data.isPrefixOf l then
    match (l.drop 8).takeWhile notTokenWs with
    | [] => none
    | tok => some ("https://".data ++ tok)
  else if "http://".data.isPrefixOf l then
    match (l.drop 7).takeWhile notTokenWs with
    | [] => none
    | tok => some ("http://".data ++ tok)
  else none

/-- Leftmost search for the URL regex. -/
def searchHttp : List Char → Option (List Char)
  | [] => none
  | c :: rest =>
    match matchHttpAt (c :: rest) with
    | some t => some t
    | none => searchHttp rest

def httpProtoAt (l : List Char) : Bool :=
  "https://".data.isPrefixOf l || "http://".data.isPrefixOf l

/-- Start positions of every http or https scheme marker occurrence, as
collected by the finditer call of the source. -/
def httpPositions (l : List Char) : List Nat :=
  (List.range l.length).filter (fun i => httpProtoAt (l.drop i))

/-- The source function _try_extract_real_url_from_tracking: decode the
esvalabs tracking redirector whose query parameter u carries the real
URL. -/
def try_extract_real_url_from_tracking (url : List Char) : List Char :=
  if pyStrip url = [] then pyStrip url
  else if !(isSubstr "esvalabs.com".data (toLowerStr (urlNetloc (pyStrip url)))) then
    pyStrip url
  else
    match parseQsFirstU (urlQuery (pyStrip url)) with
    | none => pyStrip url
    | some raw =>
      match searchHttp (pyUnquote (pyUnquote (pyUnquote (pyUnquote raw)))) with
      | none => pyStrip url
      | some tok =>
        if 2 ≤ (httpPositions (pyStrip tok)).length then
          (pyStrip tok).drop ((httpPositions (pyStrip tok)).getLast?.getD 0)
        else pyStrip tok

-- ---------------------------------------------------------------------------
-- Link resolution and scoring (_resolve_final_url, _score_link,
-- _pick_best_direct_link)
-- ---------------------------------------------------------------------------

/-- The source function _resolve_final_url. The network GET that follows
redirects is abstracted as the fetch parameter; the source returns the
settled URL of the response, or the input URL itself when the request
fails, so fetch stands for that whole try block. -/
def resolve_final_url (fetch : List Char → List Char) (url : List Char) : List Char :=
  if normalize_url url = [] then []
  else
    if try_extract_real_url_from_tracking (normalize_url url) ≠ [] ∧
        try_extract_real_url_from_tracking (normalize_url url) ≠ normalize_url url then
      try_extract_real_url_from_tracking (normalize_url url)
    else fetch (normalize_url url)

/-- The source function _score_link. -/
def score_link (href ctx : List Char) : Int :=
  if pyStrip (toLowerStr href) = [] then -1
  else if "mailto:".data.isPrefixOf (pyStrip (toLowerStr href)) then -1
  else if "tel:".data.isPrefixOf (pyStrip (toLowerStr href)) then -1
  else if isSubstr "cdn-cgi/l/email-protection".data (pyStrip (toLowerStr href)) then -1
  else
    (if isSubstr ".pdf".data (pyStrip (toLowerStr href)) then
      (200 : Int) + (if isSubstr "avviso".data (pyStrip (toLowerStr ctx)) then 80 else 0)
        + (if isSubstr "perizia".data (pyStrip (toLowerStr ctx)) then 50 else 0)
        + (if isSubstr "foto".data (pyStrip (toLowerStr ctx)) then 10 else 0)
        + (if isSubstr "planimetria".data (pyStrip (toLowerStr ctx)) then 10 else 0)
     else 0)
    + (if isSubstr "portalevenditepubbliche.giustizia.it".data (pyStrip (toLowerStr href)) then 120 else 0)
    + (if isSubstr "esvalabs.com".data (pyStrip (toLowerStr href)) then 60 else 0)
    + (if isSubstr "tribunale.bergamo.it".data (pyStrip (toLowerStr href)) then 10 else 0)

/-- A candidate link of a notice block: href and context text. -/
structure LinkCand where
  href : List Char
  ctx : List Char
deriving DecidableEq

/-- One step of the best-candidate scan of _pick_best_direct_link. -/
def pickStep (acc : List Char × Int) (o : LinkCand) : List Char × Int :=
  if score_link o.href o.ctx > acc.2 then (o.href, score_link o.href o.ctx) else acc

/-- The scan of _pick_best_direct_link, starting from the empty string and
score -1. -/
def pickBestFold (links : List LinkCand) : List Char × Int :=
  links.foldl pickStep ([], -1)

/-- The source function _pick_best_direct_link. -/
def pick_best_direct_link (fetch : List Char → List Char) (links : List LinkCand) : List Char :=
  if (pickBestFold links).1 = [] then TRIBUNALE_URL
  else resolve_final_url fetch (pickBestFold links).1

theorem pickFold_cases : ∀ (links : List LinkCand) (acc : List Char × Int),
    links.foldl pickStep acc = acc ∨
    ∃ o, o ∈ links ∧ links.foldl pickStep acc = (o.href, score_link o.href o.ctx) ∧
      acc.2 < score_link o.href o.ctx := by
  intro links
  induction links with
  | nil => intro acc; left; rfl
  | cons o rest ih =>
    intro acc
    rw [List.foldl_cons]
    by_cases h : score_link o.href o.ctx > acc.2
    · have hstep : pickStep acc o = (o.href, score_link o.href o.ctx) := by
        rw [pickStep, if_pos h]
      rw [hstep]
      rcases ih (o.href, score_link o.href o.ctx) with heq | ⟨o2, ho2, heq, hlt⟩
      · right
        exact ⟨o, List.mem_cons_self o rest, heq, h⟩
      · right
        exact ⟨o2, List.mem_cons_of_mem o ho2, heq, lt_trans h hlt⟩
    · have hstep : pickStep acc o = acc := by rw [pickStep, if_neg h]
      rw [hstep]
      rcases ih acc with heq | ⟨o2, ho2, heq, hlt⟩
      · left
        exact heq
      · right
        exact ⟨o2, List.mem_cons_of_mem o ho2, heq, hlt⟩

theorem score_link_nil (ctx : List Char) : score_link [] ctx = -1 := rfl

theorem pick_best_cases (fetch : List Char → List Char) (links : List LinkCand) :
    pick_best_direct_link fetch links = TRIBUNALE_URL ∨
    ∃ o, o ∈ links ∧ 0 ≤ score_link o.href o.ctx ∧
      pick_best_direct_link fetch links = resolve_final_url fetch o.href := by
  rcases pickFold_cases links ([], -1) with heq | ⟨o, ho, heq, hlt⟩
  · left
    rw [pick_best_direct_link, pickBestFold, heq]
    simp
  · right
    have hge : (0 : Int) ≤ score_link o.href o.ctx := by
      have : ((([] : List Char), (-1 : Int)).2 : Int) = -1 := rfl
      omega
    have hne : o.href ≠ [] := by
      intro hnil
      rw [hnil, score_link_nil] at hge
      omega
    refine ⟨o, ho, hge, ?_⟩
    rw [pick_best_direct_link, pickBestFold, heq]
    simp [hne]

-- ---------------------------------------------------------------------------
-- Claim C6: tracking decoding behavior
-- ---------------------------------------------------------------------------

/-- C6 amended: decoding percent-decodes the u parameter (once during query
parsing, then four explicit passes) and extracts the first http(s) token,
which ends at the first whitespace character; the take-the-last-occurrence
rule is applied within that first token only, so occurrences separated
from it by whitespace are ignored; a double percent-encoded destination
decodes to exactly the inner destination string; URLs whose host is not
the tracking host are returned stripped but otherwise unchanged. -/
theorem claim_C6_decode_behavior :
    (∀ url : List Char,
      isSubstr "esvalabs.com".data (toLowerStr (urlNetloc (pyStrip url))) = false →
      try_extract_real_url_from_tracking url = pyStrip url) ∧
    try_extract_real_url_from_tracking
        "https://urlsand.esvalabs.com/?u=http%253A%252F%252Fexample.com%252Fa.pdf".data
      = "http://example.com/a.pdf".data ∧
    try_extract_real_url_from_tracking
        "https://urlsand.esvalabs.com/?u=http%3A%2F%2Fwrap.com%2F%3Fd%3Dhttp%3A%2F%2Finner.com%2Fdoc".data
      = "http://inner.com/doc".data ∧
    try_extract_real_url_from_tracking
        "https://urlsand.esvalabs.com/?u=http%3A%2F%2Fa.com%20http%3A%2F%2Fb.com".data
      = "http://a.com".data := by
  refine ⟨?_, by decide, by decide, by decide⟩
  intro url h
  rw [try_extract_real_url_from_tracking]
  by_cases h0 : pyStrip url = []
  · rw [if_pos h0]
  · rw [if_neg h0, if_pos (by simp [h])]

theorem claim_C6_decode_behavior_witness :
    try_extract_real_url_from_tracking "https://www.tribunale.bergamo.it/x.pdf".data
      = pyStrip "https://www.tribunale.bergamo.it/x.pdf".data :=
  claim_C6_decode_behavior.1 "https://www.tribunale.bergamo.it/x.pdf".data (by decide)

/-- C6 counterexample: for this tracking URL the fully decoded parameter
value contains two http occurrences, the second one after a space, yet the
code returns the suffix at the first occurrence rather than the last one,
because the occurrence count is taken within the first whitespace-bounded
token only. -/
theorem claim_C6_cex :
    (httpPositions (pyUnquote (pyUnquote (pyUnquote (pyUnquote
        (unquote_plus "http%3A%2F%2Fa.com%20http%3A%2F%2Fb.com".data)))))).length = 2 ∧
    (pyUnquote (pyUnquote (pyUnquote (pyUnquote
        (unquote_plus "http%3A%2F%2Fa.com%20http%3A%2F%2Fb.com".data))))).drop 13
      = "http://b.com".data ∧
    try_extract_real_url_from_tracking
        "https://urlsand.esvalabs.com/?u=http%3A%2F%2Fa.com%20http%3A%2F%2Fb.com".data
      = "http://a.com".data ∧
    "http://a.com".data ≠ "http://b.com".data := by
  refine ⟨by decide, by decide, by decide, by decide⟩

-- ---------------------------------------------------------------------------
-- Blocks, Notices and the per-locality loop of scrape_all_comuni
-- ---------------------------------------------------------------------------

/-- A notice block extracted from the page by _extract_blocks. -/
structure Block where
  header : List Char
  body : List Char
  links : List LinkCand
deriving DecidableEq

/-- The Notice record of the source. -/
structure Notice where
  comune : List Char
  header : List Char
  body : List Char
  direct_link : List Char
  sale_date : List Char
deriving DecidableEq

/-- The link normalization loop of scrape_all_comuni: normalize each href,
drop links whose normalized href is empty, strip the context text. -/
def normalizeBlockLinks (links : List LinkCand) : List LinkCand :=
  links.filterMap (fun o =>
    if normalize_url o.href = [] then none
    else some ⟨normalize_url o.href, strip_spaces o.ctx⟩)

/-- The per-block Notice construction of scrape_all_comuni. -/
def mkNotice (fetch : List Char → List Char) (comune : List Char) (b : Block) : Notice :=
  { comune := comune
    header := if strip_spaces b.header = [] then "Annuncio".data else strip_spaces b.header
    body := (strip_spaces b.body).take 3500 ++
      (if 3500 < (strip_spaces b.body).length then ['…'] else [])
    direct_link :=
      if pick_best_direct_link fetch (normalizeBlockLinks b.links) = [] then TRIBUNALE_URL
      else pick_best_direct_link fetch (normalizeBlockLinks b.links)
    sale_date := extract_date_str (strip_spaces b.header ++ ' ' :: strip_spaces b.body) }

/-- The error placeholder Notice of the per-locality exception handler;
the err parameter stands for the formatted exception and traceback. -/
def errorNotice (comune err : List Char) : Notice :=
  { comune := comune
    header := "ERRORE scraping per ".data ++ comune
    body := err
    direct_link := TRIBUNALE_URL
    sale_date := "n/d".data }

/-- The body of the per-locality loop of scrape_all_comuni. The browser
interaction for one locality is abstracted as its outcome: the message of
a raised exception, or the page body text together with the extracted
blocks. -/
def processComune (fetch : List Char → List Char) (comune : List Char)
    (outcome : Except (List Char) (List Char × List Block)) : List Notice :=
  match outcome with
  | .error e => [errorNotice comune e]
  | .ok (pageText, blocks) =>
    if (isSubstr "nessun".data (toLowerStr pageText) ||
        isSubstr "nessuna".data (toLowerStr pageText)) &&
        !(isSubstr "lotto".data (toLowerStr pageText)) then []
    else blocks.map (mkNotice fetch comune)

/-- The source constant COMUNI. -/
def COMUNI : List (List Char) :=
  ["Azzano San Paolo".data, "Stezzano".data, "Zanica".data, "Lallio".data,
    "Grassobio".data]

/-- The per-locality loop of scrape_all_comuni, one entry per target
locality. -/
def scrape_all_comuni (fetch : List Char → List Char)
    (outcomes : List Char → Except (List Char) (List Char × List Block)) :
    List (List Char × List Notice) :=
  COMUNI.map (fun c => (c, processComune fetch c (outcomes c)))

/-- The general error result main builds when scrape_all_comuni itself
raises. -/
def generalErrorResult (e : List Char) : List (List Char × List Notice) :=
  [("ERRORE".data,
    [{ comune := "ERRORE".data, header := "ERRORE GENERALE SCRAPING".data,
       body := e, direct_link := TRIBUNALE_URL, sale_date := "n/d".data }])]

/-- The source function main reduced to its result data and exit status;
message composition and delivery are external collaborators. -/
def mainRun (runOutcome : Except (List Char) (List (List Char × List Notice))) :
    List (List Char × List Notice) × Nat :=
  match runOutcome with
  | .ok results => (results, 0)
  | .error e => (generalErrorResult e, 0)

-- ---------------------------------------------------------------------------
-- Claim C8: error isolation and exit status
-- ---------------------------------------------------------------------------

/-- C8: an error raised while scraping one locality becomes a diagnostic
placeholder Notice carrying the error detail, every locality of COMUNI still
receives an entry of the result set, and main returns exit status 0 for
every run outcome, including the outcome in which every locality fails. -/
theorem claim_C8_error_isolation :
    (∀ fetch outcomes, (scrape_all_comuni fetch outcomes).map Prod.fst = COMUNI) ∧
    (∀ fetch comune e, processComune fetch comune (Except.error e) = [errorNotice comune e]) ∧
    (∀ comune e, (errorNotice comune e).body = e ∧
      (errorNotice comune e).header = "ERRORE scraping per ".data ++ comune) ∧
    (∀ ro, (mainRun ro).2 = 0) := by
  refine ⟨?_, ?_, ?_, ?_⟩
  · intro fetch outcomes
    rfl
  · intro fetch comune e
    rfl
  · intro comune e
    exact ⟨rfl, rfl⟩
  · intro ro
    cases ro <;> rfl

-- ---------------------------------------------------------------------------
-- Claim C10: body truncation bound
-- ---------------------------------------------------------------------------

/-- C10: the stored body is the normalized block text truncated to its
first 3500 characters, with one ellipsis character appended exactly when
the original normalized text exceeds 3500 characters, so the stored body
never exceeds 3501 characters. -/
theorem claim_C10_body_bound (fetch : List Char → List Char) (comune : List Char) (b : Block) :
    (mkNotice fetch comune b).body.length ≤ 3501 ∧
    ((strip_spaces b.body).length ≤ 3500 →
      (mkNotice fetch comune b).body = strip_spaces b.body) ∧
    (3500 < (strip_spaces b.body).length →
      (mkNotice fetch comune b).body = (strip_spaces b.body).take 3500 ++ ['…']) := by
  have hb : (mkNotice fetch comune b).body = (strip_spaces b.body).take 3500 ++
      (if 3500 < (strip_spaces b.body).length then ['…'] else []) := rfl
  refine ⟨?_, ?_, ?_⟩
  · rw [hb, List.length_append, List.length_take]
    split
    · simp only [List.length_cons, List.length_nil]
      omega
    · simp only [List.length_nil]
      omega
  · intro hle
    rw [hb, if_neg (by omega), List.append_nil]
    exact List.take_of_length_le hle
  · intro hgt
    rw [hb, if_pos hgt]

theorem claim_C10_body_bound_witness :
    (mkNotice (fun u => u) "Stezzano".data
        { header := "H".data, body := "corpo breve".data, links := [] }).body
      = strip_spaces "corpo breve".data :=
  (claim_C10_body_bound (fun u => u) "Stezzano".data
    { header := "H".data, body := "corpo breve".data, links := [] }).2.1 (by decide)

-- ---------------------------------------------------------------------------
-- Claim C2: no activity filter in the result set
-- ---------------------------------------------------------------------------

/-- A block with a sale date far in the past, used as concrete input. -/
def pastBlock : Block :=
  { header := "TRIBUNALE DI BERGAMO LOTTO 1".data
    body := "vendita del 05.03.2001".data
    links := [] }

/-- C2 counterexample: a Notice whose resolved sale date 05/03/2001 is
strictly earlier than the current date (12/10/2026 here) is still present
in the per-locality result set handed on as active: no date-based
exclusion happens anywhere in the code. -/
theorem claim_C2_cex :
    (processComune (fun u => u) "Stezzano".data
        (Except.ok ("tribunale lotto".data, [pastBlock]))).map Notice.sale_date
      = ["05/03/2001".data] ∧
    dateKey (5, 3, 2001) < dateKey (12, 10, 2026) := by
  exact ⟨by decide, by decide⟩

/-- C2 amended: the code performs no activity filtering of its own:
whenever the page text contains the lotto marker, every scraped block
contributes its Notice to the per-locality result set regardless of its
sale date, past dates and the unknown date n/d included (past-auction
exclusion is delegated to the site by unchecking its include-past
checkbox before submitting). -/
theorem claim_C2_no_date_filter (fetch : List Char → List Char) (comune pageText : List Char)
    (blocks : List Block) (hl : isSubstr "lotto".data (toLowerStr pageText) = true) :
    processComune fetch comune (Except.ok (pageText, blocks))
      = blocks.map (mkNotice fetch comune) ∧
    ∀ b ∈ blocks, mkNotice fetch comune b ∈
      processComune fetch comune (Except.ok (pageText, blocks)) := by
  have he : processComune fetch comune (Except.ok (pageText, blocks))
      = blocks.map (mkNotice fetch comune) := by
    rw [processComune]
    rw [if_neg (by simp [hl])]
  exact ⟨he, fun b hb => he ▸ List.mem_map_of_mem _ hb⟩

theorem claim_C2_no_date_filter_witness :
    processComune (fun u => u) "Zanica".data
        (Except.ok ("tribunale lotto".data, [pastBlock]))
      = [pastBlock].map (mkNotice (fun u => u) "Zanica".data) :=
  (claim_C2_no_date_filter (fun u => u) "Zanica".data "tribunale lotto".data [pastBlock]
    (by decide)).1

-- ---------------------------------------------------------------------------
-- Claim C5: canonical link vs candidate set
-- ---------------------------------------------------------------------------

/-- A block whose only candidate link is a tracking-redirector URL. -/
def trackingBlock : Block :=
  { header := "TRIBUNALE DI BERGAMO LOTTO 2".data
    body := "asta".data
    links := [⟨"https://urlsand.esvalabs.com/?u=https%3A%2F%2Fdest.example%2Fdoc.pdf".data,
      "avviso".data⟩] }

/-- C5 counterexample: for this Notice the canonical direct link is the
decoded tracking destination, which differs from the candidate href (in
raw and in normalized form) and from the fallback URL, so the stated
invariant canonical link in candidates union fallback fails. -/
theorem claim_C5_cex :
    (mkNotice (fun u => u) "Lallio".data trackingBlock).direct_link
      = "https://dest.example/doc.pdf".data ∧
    "https://dest.example/doc.pdf".data ≠
      "https://urlsand.esvalabs.com/?u=https%3A%2F%2Fdest.example%2Fdoc.pdf".data ∧
    "https://dest.example/doc.pdf".data ≠
      normalize_url "https://urlsand.esvalabs.com/?u=https%3A%2F%2Fdest.example%2Fdoc.pdf".data ∧
    "https://dest.example/doc.pdf".data ≠ TRIBUNALE_URL := by
  refine ⟨by decide, by decide, by decide, by decide⟩

/-- C5 amended: the canonical direct link is the fallback URL or the
resolve_final_url image (tracking decoding, or the settled URL of the
redirect-following fetch) of the normalized href of one of the candidate
links of the Notice. -/
theorem claim_C5_canonical_resolved (fetch : List Char → List Char) (comune : List Char)
    (b : Block) :
    (mkNotice fetch comune b).direct_link = TRIBUNALE_URL ∨
    ∃ o, o ∈ normalizeBlockLinks b.links ∧
      (mkNotice fetch comune b).direct_link = resolve_final_url fetch o.href := by
  have hd : (mkNotice fetch comune b).direct_link =
      (if pick_best_direct_link fetch (normalizeBlockLinks b.links) = [] then TRIBUNALE_URL
       else pick_best_direct_link fetch (normalizeBlockLinks b.links)) := rfl
  rcases pick_best_cases fetch (normalizeBlockLinks b.links) with hp | ⟨o, ho, hsc, hp⟩
  · left
    rw [hd, hp]
    split <;> rfl
  · by_cases hz : pick_best_direct_link fetch (normalizeBlockLinks b.links) = []
    · left
      rw [hd, if_pos hz]
    · right
      exact ⟨o, ho, by rw [hd, if_neg hz]; exact hp⟩

-- ---------------------------------------------------------------------------
-- Claim C7: sentinel scores and fallback
-- ---------------------------------------------------------------------------

/-- Modelled from the spec: a link pointing at an image asset, identified
by its file extension, used only to state the comparison. -/
def isImageAsset (href : List Char) : Bool :=
  isSubstr ".jpg".data (toLowerStr href) || isSubstr ".jpeg".data (toLowerStr href) ||
  isSubstr ".png".data (toLowerStr href) || isSubstr ".gif".data (toLowerStr href)

/-- C7 counterexample: an image-asset link on the court domain receives
score 10, above the sentinel -1, and is selected as the canonical link,
while the claim states image links receive a sentinel score below any
valid candidate and are never selected. -/
theorem claim_C7_cex :
    isImageAsset "https://www.tribunale.bergamo.it/foto1.jpg".data = true ∧
    score_link "https://www.tribunale.bergamo.it/foto1.jpg".data "foto".data = 10 ∧
    pick_best_direct_link (fun u => u)
        [⟨"https://www.tribunale.bergamo.it/foto1.jpg".data, "foto".data⟩]
      = "https://www.tribunale.bergamo.it/foto1.jpg".data ∧
    "https://www.tribunale.bergamo.it/foto1.jpg".data ≠ TRIBUNALE_URL := by
  refine ⟨by decide, by decide, by decide, by decide⟩

theorem isPrefixOf_cons_shape {a : Char} {as l : List Char}
    (h : (a :: as).isPrefixOf l = true) : ∃ t, l = a :: t := by
  cases l with
  | nil => simp [List.isPrefixOf] at h
  | cons b bs =>
    simp only [List.isPrefixOf, Bool.and_eq_true, beq_iff_eq] at h
    exact ⟨bs, by rw [h.1]⟩

/-- C7 amended: mailto and tel links (and Cloudflare email-protection
links) receive the sentinel score -1 and are never selected; when no
candidate scores above the sentinel (the empty candidate list included)
the canonical link is the fallback search-results URL; image-asset links
are not excluded by any rule and can be selected. -/
theorem claim_C7_sentinel :
    (∀ href ctx : List Char,
      "mailto:".data.isPrefixOf (pyStrip (toLowerStr href)) = true →
      score_link href ctx = -1) ∧
    (∀ href ctx : List Char,
      "tel:".data.isPrefixOf (pyStrip (toLowerStr href)) = true →
      score_link href ctx = -1) ∧
    (∀ fetch links, (∀ o ∈ links, score_link o.href o.ctx ≤ -1) →
      pick_best_direct_link fetch links = TRIBUNALE_URL) ∧
    (∀ fetch links, pick_best_direct_link fetch links = TRIBUNALE_URL ∨
      ∃ o, o ∈ links ∧ 0 ≤ score_link o.href o.ctx ∧
        pick_best_direct_link fetch links = resolve_final_url fetch o.href) := by
  refine ⟨?_, ?_, ?_, ?_⟩
  · intro href ctx h
    obtain ⟨t, ht⟩ := isPrefixOf_cons_shape h
    rw [score_link, ht]
    rw [if_neg (by simp), if_pos (by rw [← ht]; exact h)]
  · intro href ctx h
    obtain ⟨t, ht⟩ := isPrefixOf_cons_shape h
    have hm : "mailto:".data.isPrefixOf ('t' :: t) = false := rfl
    rw [score_link, ht]
    rw [if_neg (by simp), if_neg (by rw [hm]; simp), if_pos (by rw [← ht]; exact h)]
  · intro fetch links hall
    rcases pick_best_cases fetch links with hp | ⟨o, ho, hsc, hp⟩
    · exact hp
    · have := hall o ho
      omega
  · intro fetch links
    exact pick_best_cases fetch links

theorem claim_C7_sentinel_witness :
    score_link "mailto:info@example.com".data [] = -1 ∧
    score_link "tel:+390350000".data [] = -1 ∧
    pick_best_direct_link (fun u => u) [⟨"mailto:info@example.com".data, []⟩]
      = TRIBUNALE_URL :=
  ⟨claim_C7_sentinel.1 "mailto:info@example.com".data [] (by decide),
   claim_C7_sentinel.2.1 "tel:+390350000".data [] (by decide),
   claim_C7_sentinel.2.2.1 (fun u => u) [⟨"mailto:info@example.com".data, []⟩]
     (by decide)⟩

-- ---------------------------------------------------------------------------
-- Claim C4: option selection strategies
-- ---------------------------------------------------------------------------

/-- First index in a list satisfying a predicate, matching a Python scan
loop with break. -/
def firstMatchIdx {α : Type} (p : α → Bool) : List α → Option Nat
  | [] => none
  | t :: rest => if p t then some 0 else (firstMatchIdx p rest).map (fun i => i + 1)

/-- The exact tier of _select_option_by_text: a nonempty option text whose
lowercasing equals the normalized desired text. -/
def exactTier (dn : List Char) (t : List Char) : Bool :=
  !t.isEmpty && (toLowerStr t == dn)

/-- The containment tier of _select_option_by_text: the normalized desired
text occurs inside the lowercased option text. -/
def containsTier (dn : List Char) (t : List Char) : Bool :=
  isSubstr dn (toLowerStr t)

/-- The source function _select_option_by_text reduced to its matching
decision: which option index is selected for the desired text; none stands
for the RuntimeError raised when both loops fail. -/
def select_option_by_text (options : List (List Char)) (desired : List Char) : Option Nat :=
  match firstMatchIdx (exactTier (toLowerStr (strip_spaces desired)))
      (options.map strip_spaces) with
  | some i => some i
  | none =>
    firstMatchIdx (containsTier (toLowerStr (strip_spaces desired)))
      (options.map strip_spaces)

theorem firstMatchIdx_none {α : Type} (p : α → Bool) :
    ∀ l : List α, firstMatchIdx p l = none ↔ ∀ x ∈ l, p x = false := by
  intro l
  induction l with
  | nil => simp [firstMatchIdx]
  | cons a as ih =>
    rw [firstMatchIdx]
    by_cases h : p a
    · simp [h]
    · rw [if_neg h]
      constructor
      · intro hmap
        have hnone : firstMatchIdx p as = none := by
          cases hfi : firstMatchIdx p as with
          | none => rfl
          | some k => rw [hfi] at hmap; simp at hmap
        intro x hx
        rcases List.mem_cons.mp hx with hxa | hxas
        · rw [hxa]
          exact Bool.eq_false_iff.mpr h
        · exact (ih.mp hnone) x hxas
      · intro hall
        have : firstMatchIdx p as = none :=
          ih.mpr (fun x hx => hall x (List.mem_cons_of_mem a hx))
        rw [this]
        rfl

theorem firstMatchIdx_some {α : Type} (p : α → Bool) :
    ∀ (l : List α) (i : Nat), firstMatchIdx p l = some i →
      (∃ x, l.get? i = some x ∧ p x = true) ∧
      ∀ j, j < i → ∀ x, l.get? j = some x → p x = false := by
  intro l
  induction l with
  | nil => intro i h; simp [firstMatchIdx] at h
  | cons a as ih =>
    intro i h
    rw [firstMatchIdx] at h
    by_cases hp : p a
    · rw [if_pos hp] at h
      injection h with h0
      subst h0
      exact ⟨⟨a, by simp, hp⟩, fun j hj => absurd hj (Nat.not_lt_zero j)⟩
    · rw [if_neg hp] at h
      cases hfi : firstMatchIdx p as with
      | none => rw [hfi] at h; simp at h
      | some k =>
        rw [hfi] at h
        have h0 : k + 1 = i := by simpa using h
        subst h0
        obtain ⟨⟨x, hx, hpx⟩, hmin⟩ := ih k hfi
        refine ⟨⟨x, by simpa using hx, hpx⟩, ?_⟩
        intro j hj y hy
        cases j with
        | zero =>
          have hya : y = a := by simpa using hy.symm
          rw [hya]
          exact Bool.eq_false_iff.mpr hp
        | succ m =>
          exact hmin m (by omega) y (by simpa using hy)

/-- C4 amended: only two strategies are tried, in order: exact
case-insensitive match of the normalized texts (skipping empty option
texts), then containment of the desired text inside the option text; there
is no token-overlap tier, and when both strategies fail the function
raises an error instead of matching an option. -/
theorem claim_C4_two_strategies (options : List (List Char)) (desired : List Char) :
    (select_option_by_text options desired = none ↔
      ((∀ t ∈ options.map strip_spaces,
          exactTier (toLowerStr (strip_spaces desired)) t = false) ∧
       (∀ t ∈ options.map strip_spaces,
          containsTier (toLowerStr (strip_spaces desired)) t = false))) ∧
    (∀ i, select_option_by_text options desired = some i →
      ∃ x, (options.map strip_spaces).get? i = some x ∧
        (exactTier (toLowerStr (strip_spaces desired)) x = true ∨
         ((∀ t ∈ options.map strip_spaces,
             exactTier (toLowerStr (strip_spaces desired)) t = false) ∧
          containsTier (toLowerStr (strip_spaces desired)) x = true))) := by
  constructor
  · rw [select_option_by_text]
    cases hfi : firstMatchIdx (exactTier (toLowerStr (strip_spaces desired)))
        (options.map strip_spaces) with
    | some k =>
      constructor
      · intro hh
        exact absurd hh (by simp)
      · intro ⟨hex, _⟩
        obtain ⟨⟨x, hx, hpx⟩, _⟩ := firstMatchIdx_some _ _ k hfi
        have := hex x (List.get?_mem hx)
        rw [this] at hpx
        exact absurd hpx (by simp)
    | none =>
      constructor
      · intro hh
        exact ⟨(firstMatchIdx_none _ _).mp hfi, (firstMatchIdx_none _ _).mp hh⟩
      · intro ⟨_, hcon⟩
        exact (firstMatchIdx_none _ _).mpr hcon
  · intro i hi
    rw [select_option_by_text] at hi
    cases hfi : firstMatchIdx (exactTier (toLowerStr (strip_spaces desired)))
        (options.map strip_spaces) with
    | some k =>
      rw [hfi] at hi
      injection hi with h0
      obtain ⟨⟨x, hx, hpx⟩, _⟩ := firstMatchIdx_some _ _ k hfi
      exact ⟨x, h0 ▸ hx, Or.inl hpx⟩
    | none =>
      rw [hfi] at hi
      obtain ⟨⟨x, hx, hpx⟩, _⟩ := firstMatchIdx_some _ _ i hi
      exact ⟨x, hx, Or.inr ⟨(firstMatchIdx_none _ _).mp hfi, hpx⟩⟩

theorem claim_C4_two_strategies_witness :
    ∃ x, (["Stezzano (BG)".data].map strip_spaces).get? 0 = some x ∧
      (exactTier (toLowerStr (strip_spaces "Stezzano".data)) x = true ∨
       ((∀ t ∈ ["Stezzano (BG)".data].map strip_spaces,
           exactTier (toLowerStr (strip_spaces "Stezzano".data)) t = false) ∧
        containsTier (toLowerStr (strip_spaces "Stezzano".data)) x = true)) :=
  (claim_C4_two_strategies ["Stezzano (BG)".data] "Stezzano".data).2 0 (by decide)

/-- Helper for Python str.split with no argument: the accumulator carries
the current word reversed and is flushed at whitespace and at the end. -/
def pyWordsAux : List Char → List Char → List (List Char)
  | acc, [] => if acc = [] then [] else [acc.reverse]
  | acc, c :: rest =>
    if pyWhitespace c then
      if acc = [] then pyWordsAux [] rest
      else acc.reverse :: pyWordsAux [] rest
    else pyWordsAux (c :: acc) rest

/-- Python str.split with no argument: the maximal nonempty runs of
non-whitespace characters. -/
def pyWords (l : List Char) : List (List Char) := pyWordsAux [] l

/-- Modelled from the spec: the shared-token count of strategy (3) of the
Interaction Sequencer, which is absent from src/: split both texts into
whitespace tokens and count the tokens of the first that occur among the
tokens of the second. -/
def sharedTokenCount (a b : List Char) : Nat :=
  ((pyWords a).filter (fun t => (pyWords b).contains t)).length

/-- Modelled from the spec: strategy (3) itself, token-overlap best match:
the first option maximizing the shared-token count, requiring at least one
shared token to succeed. -/
def tokenOverlapBest (options : List (List Char)) (desired : List Char) : Option Nat :=
  match (options.map (fun o =>
      sharedTokenCount (toLowerStr (strip_spaces desired))
        (toLowerStr (strip_spaces o)))).foldl max 0 with
  | 0 => none
  | m + 1 =>
    firstMatchIdx (fun c => c == m + 1)
      (options.map (fun o =>
        sharedTokenCount (toLowerStr (strip_spaces desired))
          (toLowerStr (strip_spaces o))))

/-- C4 counterexample: with a single option spelled with an abbreviation,
the exact and containment tiers both fail and the code raises a
RuntimeError, while the token-overlap tier required by the claim finds two
shared tokens and would match the option, so the claimed three-strategy
procedure and the code disagree on this input. -/
theorem claim_C4_cex :
    select_option_by_text ["Azzano S. Paolo (BG)".data] "Azzano San Paolo".data = none ∧
    tokenOverlapBest ["Azzano S. Paolo (BG)".data] "Azzano San Paolo".data = some 0 := by
  exact ⟨by decide, by decide⟩

-- ---------------------------------------------------------------------------
-- Claim C3: fingerprinting and deduplication (modelled from the spec)
-- ---------------------------------------------------------------------------

/-- A fully-qualified URL in the sense of the Fingerprint component: an
absolute http or https URL. -/
def isFullyQualifiedUrl (l : List Char) : Bool :=
  "http://".data.isPrefixOf l || "https://".data.isPrefixOf l

/-- Modelled from the spec: the fingerprint computation of the
Fingerprint/Deduplicator component, which has no code under src/: when the
canonical direct link is a fully-qualified non-fallback URL the
fingerprint is that URL verbatim, otherwise a fixed-separator composite of
normalized header text and sale-date text (the Notice record of src/
carries no separate price text, so that optional component is absent). -/
def fingerprint (n : Notice) : List Char :=
  if isFullyQualifiedUrl n.direct_link && !(n.direct_link == TRIBUNALE_URL) then
    n.direct_link
  else strip_spaces n.header ++ '|' :: '|' :: n.sale_date

/-- Modelled from the spec: the per-locality diff of the Deduplicator: the
new subset is every current Notice whose fingerprint is absent from the
previously persisted fingerprint set. -/
def newNotices (prev : List (List Char)) (cur : List Notice) : List Notice :=
  cur.filter (fun n => !(prev.contains (fingerprint n)))

/-- Modelled from the spec: the persisted state is replaced wholesale by
the fingerprints of the current run. -/
def persistState (cur : List Notice) : List (List Char) := cur.map fingerprint

/-- C3: the fingerprint is the canonical link verbatim for fully-qualified
non-fallback links and the fixed-separator composite otherwise, the new
subset is exactly the current Notices whose fingerprint is absent from the
previous set, and rerunning the Deduplicator on identical output against
the state it persisted yields zero new notices. -/
theorem claim_C3_dedup (prev : List (List Char)) (cur : List Notice) (n : Notice) :
    (isFullyQualifiedUrl n.direct_link = true → n.direct_link ≠ TRIBUNALE_URL →
      fingerprint n = n.direct_link) ∧
    (n ∈ newNotices prev cur ↔ (n ∈ cur ∧ fingerprint n ∉ prev)) ∧
    newNotices (persistState cur) cur = [] := by
  refine ⟨?_, ?_, ?_⟩
  · intro h1 h2
    rw [fingerprint, if_pos (by simp [h1, h2])]
  · rw [newNotices, List.mem_filter]
    constructor
    · intro ⟨hmem, hc⟩
      refine ⟨hmem, ?_⟩
      intro habs
      rw [show prev.contains (fingerprint n) = true by
        simpa [List.contains, List.elem_iff] using habs] at hc
      exact absurd hc (by simp)
    · intro ⟨hmem, habs⟩
      refine ⟨hmem, ?_⟩
      simpa [List.contains, List.elem_iff] using habs
  · rw [newNotices, List.filter_eq_nil_iff]
    intro a ha
    simp only [Bool.not_eq_true', Bool.not_eq_false]
    simpa [persistState, List.contains, List.elem_iff] using
      List.mem_map_of_mem fingerprint ha

/-- A concrete Notice with a fully-qualified non-fallback canonical link,
used to witness the fingerprint and deduplication behavior. -/
def fpNotice : Notice :=
  { comune := "Stezzano".data
    header := "H".data
    body := "B".data
    direct_link := "https://example.com/a.pdf".data
    sale_date := "n/d".data }

theorem claim_C3_dedup_witness :
    fingerprint fpNotice = "https://example.com/a.pdf".data ∧
    newNotices (persistState [fpNotice]) [fpNotice] = [] :=
  ⟨(claim_C3_dedup [] [] fpNotice).1 (by decide) (by decide),
   (claim_C3_dedup [] [fpNotice] fpNotice).2.2⟩
